import Mathlib

/-!
Verification of the naming and transactional-mutation layer of the rv6
kernel (files `kernel-rs/src/fs/path.rs` and `kernel-rs/src/sysfile.rs`),
via a shallow embedding.  Bytes are modelled as `Nat` (the code only
compares bytes against `'/'` and NUL), machine counters as `Int`/`Nat`.
The inode table, directory entries and the descriptor table — whose code
lives outside the given sources — are modelled from the spec where noted.
-/

namespace Rv6

/-- Directory-entry name capacity (`DIRSIZ` in the source tree). -/
def DIRSIZ : Nat := 14

/-- The path separator byte, `b'/'`. -/
def sep : Nat := 47

/-- Bytes of an ASCII string, for concrete test inputs. -/
def strBytes (s : String) : List Nat := s.toList.map Char.toNat

/-- Embeds `FileName` of `fs/path.rs`: a byte slice of length at most
`DIRSIZ` containing no NUL.  Equality derives as byte-wise equality. -/
structure FileName where
  inner : List Nat
  deriving DecidableEq, Repr

/-- Embeds `FileName::from_bytes`: keep the first `min DIRSIZ len` bytes,
truncating silently.  The NUL-freeness safety condition is a hypothesis of
the theorems below, not enforced here. -/
def FileName.from_bytes (bytes : List Nat) : FileName :=
  ⟨bytes.take DIRSIZ⟩

/-- Embeds `Path::skipelem` of `fs/path.rs`.  The source works with
`Iterator::position` over a byte slice; skipping up to the first byte
failing a predicate is rendered as `dropWhile`, and taking up to it as
`takeWhile`. -/
def skipelem (path : List Nat) : Option (List Nat × FileName) :=
  let bytes := path.dropWhile (fun c => c == sep)
  match bytes with
  | [] => none
  | _ :: _ =>
    let name := FileName.from_bytes (bytes.takeWhile (fun c => c != sep))
    let rest := bytes.dropWhile (fun c => c != sep)
    some (rest.dropWhile (fun c => c == sep), name)

/-- Fuel-indexed iteration of `skipelem`; `skipelem` strictly shrinks the
path, so fuel `path.length + 1` always suffices (see the lemmas below). -/
def componentsF : Nat → List Nat → List FileName
  | 0, _ => []
  | fuel + 1, path =>
    match skipelem path with
    | none => []
    | some (np, n) => n :: componentsF fuel np

/-- The full component sequence produced by iterating `skipelem`. -/
def components (path : List Nat) : List FileName :=
  componentsF (path.length + 1) path

lemma dropWhile_length_le (p : Nat → Bool) :
    ∀ l : List Nat, (l.dropWhile p).length ≤ l.length := by
  intro l
  induction l with
  | nil => simp [List.dropWhile]
  | cons a t ih =>
    by_cases h : p a
    · rw [List.dropWhile_cons_of_pos h]
      exact Nat.le_trans ih (Nat.le_succ _)
    · rw [List.dropWhile_cons_of_neg h]

lemma dropWhile_head?_not (p : Nat → Bool) :
    ∀ l : List Nat, ∀ c, (l.dropWhile p).head? = some c → p c = false := by
  intro l
  induction l with
  | nil => intro c h; simp [List.dropWhile] at h
  | cons a t ih =>
    intro c h
    by_cases hp : p a
    · rw [List.dropWhile_cons_of_pos hp] at h
      exact ih c h
    · rw [List.dropWhile_cons_of_neg hp] at h
      simp at h
      subst h
      exact Bool.of_not_eq_true hp

/-- Helper: `skipelem` strictly shrinks the remaining path. -/
lemma skipelem_len_lt (path np : List Nat) (n : FileName)
    (h : skipelem path = some (np, n)) : np.length < path.length := by
  unfold skipelem at h
  cases hb : path.dropWhile (fun c => c == sep) with
  | nil => rw [hb] at h; simp at h
  | cons b t =>
    rw [hb] at h
    simp only [Option.some.injEq, Prod.mk.injEq] at h
    have hbsep : (b == sep) = false := by
      apply dropWhile_head?_not (fun c => c == sep) path
      rw [hb]; rfl
    have h1 : ((b :: t).dropWhile (fun c => c != sep)) = t.dropWhile (fun c => c != sep) := by
      apply List.dropWhile_cons_of_pos
      simp [bne, hbsep]
    have h2 : np.length ≤ t.length := by
      rw [← h.1, h1]
      exact Nat.le_trans (dropWhile_length_le _ _) (dropWhile_length_le _ _)
    have h3 : (b :: t).length ≤ path.length := by
      rw [← hb]; exact dropWhile_length_le _ _
    calc np.length ≤ t.length := h2
      _ < (b :: t).length := by simp
      _ ≤ path.length := h3

/-- Helper: the remaining path returned by `skipelem` has no leading
separators, so it is empty exactly when it yields no further component. -/
lemma skipelem_rest_none_iff (path np : List Nat) (n : FileName)
    (h : skipelem path = some (np, n)) : np = [] ↔ skipelem np = none := by
  constructor
  · intro he; subst he; rfl
  · intro he
    by_contra hne
    cases hnp : np with
    | nil => exact hne hnp
    | cons a t =>
      have hhead : (a == sep) = false := by
        unfold skipelem at h
        cases hb : path.dropWhile (fun c => c == sep) with
        | nil => rw [hb] at h; simp at h
        | cons b u =>
          rw [hb] at h
          simp only [Option.some.injEq, Prod.mk.injEq] at h
          apply dropWhile_head?_not (fun c => c == sep)
            ((b :: u).dropWhile (fun c => c != sep))
          rw [h.1, hnp]; rfl
      unfold skipelem at he
      rw [hnp] at he
      rw [List.dropWhile_cons_of_neg (by simp [hhead])] at he
      simp at he

lemma componentsF_congr :
    ∀ f g path, path.length < f → path.length < g →
      componentsF f path = componentsF g path := by
  intro f
  induction f with
  | zero => intro g path hf _; omega
  | succ f ih =>
    intro g path hf hg
    cases g with
    | zero => omega
    | succ g =>
      show componentsF (f + 1) path = componentsF (g + 1) path
      unfold componentsF
      cases hs : skipelem path with
      | none => rfl
      | some pr =>
        obtain ⟨np, n⟩ := pr
        have hlt := skipelem_len_lt path np n hs
        simp only
        rw [ih g np (by omega) (by omega)]

/-- Helper: one-step unfolding of `components`. -/
lemma components_unfold (path : List Nat) :
    components path =
      match skipelem path with
      | none => []
      | some (np, n) => n :: components np := by
  show componentsF (path.length + 1) path = _
  unfold componentsF
  cases hs : skipelem path with
  | none => rfl
  | some pr =>
    obtain ⟨np, n⟩ := pr
    have hlt := skipelem_len_lt path np n hs
    simp only
    rw [componentsF_congr path.length (np.length + 1) np (by omega) (by omega)]
    rfl

/-- Helper: the remaining path is empty iff it yields no components. -/
lemma skipelem_rest_nil_iff_components (path np : List Nat) (n : FileName)
    (h : skipelem path = some (np, n)) : np = [] ↔ components np = [] := by
  rw [skipelem_rest_none_iff path np n h, components_unfold]
  constructor
  · intro he; rw [he]
  · intro he
    cases hs : skipelem np with
    | none => rfl
    | some pr => rw [hs] at he; obtain ⟨a, b⟩ := pr; simp at he

/-- C6: the path walker's single step yields `("bb/c", "a")` on `"a/bb/c"`,
`("bb", "a")` on `"///a//bb"`, `("", "a")` on `"a"`, and nothing on `""`
and `"////"`; iterating it on `"a/bb/c"` yields exactly `"a"`, `"bb"`,
`"c"` in order. -/
theorem skipelem_examples :
    skipelem (strBytes "a/bb/c")
        = some (strBytes "bb/c", FileName.from_bytes (strBytes "a"))
    ∧ skipelem (strBytes "///a//bb")
        = some (strBytes "bb", FileName.from_bytes (strBytes "a"))
    ∧ skipelem (strBytes "a")
        = some (strBytes "", FileName.from_bytes (strBytes "a"))
    ∧ skipelem (strBytes "") = none
    ∧ skipelem (strBytes "////") = none
    ∧ components (strBytes "a/bb/c")
        = [FileName.from_bytes (strBytes "a"),
           FileName.from_bytes (strBytes "bb"),
           FileName.from_bytes (strBytes "c")] := by
  refine ⟨rfl, rfl, rfl, rfl, rfl, rfl⟩

/-- C8: on NUL-free input, `FileName::from_bytes` is total, truncates to
the first `DIRSIZ` bytes (identity on inputs of length at most `DIRSIZ`),
the result is NUL-free and at most `DIRSIZ` bytes long, and `FileName`
equality is byte-wise equality. -/
theorem fileName_from_bytes_spec (bs : List Nat) (hnul : 0 ∉ bs) :
    (FileName.from_bytes bs).inner = bs.take DIRSIZ
    ∧ (bs.length ≤ DIRSIZ → (FileName.from_bytes bs).inner = bs)
    ∧ 0 ∉ (FileName.from_bytes bs).inner
    ∧ (FileName.from_bytes bs).inner.length ≤ DIRSIZ
    ∧ (∀ a b : FileName, a = b ↔ a.inner = b.inner) := by
  refine ⟨rfl, ?_, ?_, ?_, ?_⟩
  · intro hle
    show bs.take DIRSIZ = bs
    exact List.take_of_length_le hle
  · intro hmem
    exact hnul (List.mem_of_mem_take hmem)
  · show (bs.take DIRSIZ).length ≤ DIRSIZ
    rw [List.length_take]
    exact Nat.min_le_left _ _
  · intro a b
    cases a; cases b
    simp

/-- C8 witness: the spec instantiated at the concrete NUL-free input
`"abc"`. -/
theorem fileName_from_bytes_spec_witness :
    (0 ∉ strBytes "abc")
    ∧ ((FileName.from_bytes (strBytes "abc")).inner
        = (strBytes "abc").take DIRSIZ
      ∧ ((strBytes "abc").length ≤ DIRSIZ →
          (FileName.from_bytes (strBytes "abc")).inner = strBytes "abc")
      ∧ 0 ∉ (FileName.from_bytes (strBytes "abc")).inner
      ∧ (FileName.from_bytes (strBytes "abc")).inner.length ≤ DIRSIZ
      ∧ (∀ a b : FileName, a = b ↔ a.inner = b.inner)) :=
  ⟨by decide, fileName_from_bytes_spec (strBytes "abc") (by decide)⟩

/-- C9: whenever `skipelem` returns a remaining path it is strictly
shorter than its input, and consequently iterating the walker stabilizes
within `path.length + 1` steps (the component sequence is finite and the
resolver's descent loop terminates). -/
theorem skipelem_decreasing (path np : List Nat) (n : FileName)
    (h : skipelem path = some (np, n)) :
    np.length < path.length
    ∧ (∀ p : List Nat, componentsF (p.length + 1) p = componentsF (p.length + 2) p) := by
  refine ⟨skipelem_len_lt path np n h, ?_⟩
  intro p
  exact componentsF_congr (p.length + 1) (p.length + 2) p (by omega) (by omega)

/-- C9 witness: the decrease property at the concrete input `"a/b"`. -/
theorem skipelem_decreasing_witness :
    (strBytes "b").length < (strBytes "a/b").length
    ∧ (∀ p : List Nat, componentsF (p.length + 1) p = componentsF (p.length + 2) p) :=
  skipelem_decreasing (strBytes "a/b") (strBytes "b")
    (FileName.from_bytes (strBytes "a")) rfl

/-! ## File-system state model

The inode table (`Itable`), directory-entry operations (`dirlookup`,
`dirlink`, `is_dir_empty`), and inode allocation live outside the given
sources; they are modelled from the spec (§3, §6 and the persisted-layout
note) below.  An inode is identified by a `(device, inode-number)` pair. -/

/-- Inode identity: `(device id, inode number)`, as in `RcInode`. -/
abbrev Ref := Nat × Nat

/-- Embeds `InodeType`: directory, regular file, or device (major/minor). -/
inductive InodeType where
  | dir
  | file
  | device (major minor : Nat)
  deriving DecidableEq, Repr

/-- Modelled from the spec: a directory entry pairs a `FileName` with an
inode number; a record with inode number 0 is free. -/
structure Dirent where
  name : FileName
  inum : Nat
  deriving DecidableEq, Repr

/-- Mutable inode metadata guarded by an `InodeGuard`: type, link count,
and (for directories) the flat sequence of `Dirent` records. -/
structure InodeData where
  typ : InodeType
  nlink : Int
  entries : List Dirent
  deriving DecidableEq, Repr

/-- The shared inode table, as a finite association list over `Ref`. -/
structure FsState where
  inodes : List (Ref × InodeData)
  deriving DecidableEq, Repr

def assocFind (r : Ref) : List (Ref × InodeData) → Option InodeData
  | [] => none
  | (r', d) :: t => if r' = r then some d else assocFind r t

def assocSet (r : Ref) (d : InodeData) : List (Ref × InodeData) → List (Ref × InodeData)
  | [] => [(r, d)]
  | (r', d') :: t => if r' = r then (r, d) :: t else (r', d') :: assocSet r d t

def lookupInode (st : FsState) (r : Ref) : Option InodeData :=
  assocFind r st.inodes

def setInode (st : FsState) (r : Ref) (d : InodeData) : FsState :=
  ⟨assocSet r d st.inodes⟩

/-- Link count of an inode, if it exists. -/
def nlinkOf (st : FsState) (r : Ref) : Option Int :=
  (lookupInode st r).map InodeData.nlink

/-- Directory entry at a byte offset (modelled as a record index). -/
def entryAt (st : FsState) (r : Ref) (off : Nat) : Option Dirent :=
  (lookupInode st r).bind (fun d => d.entries[off]?)

/-- Modelled from the spec: `directory_lookup(name) -> (handle, offset)`
scans the flat `Dirent` records, skipping free (inode-number-0) records,
and returns the matching record's inode number and offset. -/
def dirlookupEnts : List Dirent → FileName → Option (Nat × Nat)
  | [], _ => none
  | e :: t, nm =>
    if e.inum ≠ 0 ∧ e.name = nm then some (e.inum, 0)
    else (dirlookupEnts t nm).map (fun p => (p.1, p.2 + 1))

def dirlookup (d : InodeData) (nm : FileName) : Option (Nat × Nat) :=
  dirlookupEnts d.entries nm

/-- Modelled from the spec: writing a new `Dirent` reuses the first free
record or appends at the end. -/
def dirlinkEnts (nm : FileName) (inum : Nat) : List Dirent → List Dirent
  | [] => [⟨nm, inum⟩]
  | e :: t => if e.inum = 0 then ⟨nm, inum⟩ :: t else e :: dirlinkEnts nm inum t

/-- Modelled from the spec: `directory_link(name, inode_number)` fails iff
the name is already present, else writes the entry into the directory. -/
def dirlink (st : FsState) (r : Ref) (nm : FileName) (inum : Nat) :
    Except Unit FsState :=
  match lookupInode st r with
  | none => .error ()
  | some d =>
    if (dirlookup d nm).isSome then .error ()
    else .ok (setInode st r { d with entries := dirlinkEnts nm inum d.entries })

/-- Modelled from the spec: a directory is empty when every record beyond
the first two (`"."` and `".."`) is free. -/
def isDirEmpty (d : InodeData) : Prop :=
  ∀ e ∈ d.entries.drop 2, e.inum = 0

instance (d : InodeData) : Decidable (isDirEmpty d) :=
  List.decidableBAll _ _

/-- Modelled from the spec: `allocate(device, type)` returns a fresh
handle; freshness is realized by exceeding every inode number in use. -/
def freshInum (st : FsState) : Nat :=
  (st.inodes.map (fun p => p.1.2)).foldr max 0 + 1

/-! ## Resolver (`Path::namex`, `namei`, `nameiparent` of `fs/path.rs`) -/

/-- Embeds `Path::is_absolute`. -/
def isAbsolute (path : List Nat) : Prop :=
  path ≠ [] ∧ path.head? = some sep

instance (path : List Nat) : Decidable (isAbsolute path) := by
  unfold isAbsolute; infer_instance

/-- Fuel-indexed body of `Path::namex`'s descent loop: take the next
component with `skipelem`; lock the current inode and fail unless it is a
directory; with `parent` set and an empty remaining path, stop one level
early returning the current handle and the component; otherwise descend
through `dirlookup`.  Fuel `path.length + 1` always suffices because
`skipelem` shrinks the path. -/
def namexGoF : Nat → FsState → Ref → List Nat → Bool → Except Unit (Ref × Option FileName)
  | 0, _, ptr, _, parent => if parent then .error () else .ok (ptr, none)
  | fuel + 1, st, ptr, path, parent =>
    match skipelem path with
    | none => if parent then .error () else .ok (ptr, none)
    | some (newPath, name) =>
      match lookupInode st ptr with
      | none => .error ()
      | some ip =>
        if ip.typ ≠ InodeType.dir then .error ()
        else if parent ∧ newPath = [] then .ok (ptr, some name)
        else
          match dirlookup ip name with
          | none => .error ()
          | some (inum, _) => namexGoF fuel st (ptr.1, inum) newPath parent

def namexGo (st : FsState) (ptr : Ref) (path : List Nat) (parent : Bool) :
    Except Unit (Ref × Option FileName) :=
  namexGoF (path.length + 1) st ptr path parent

/-- Embeds `Path::namex`: start from the root inode on an absolute path,
else from the caller's current working directory, then run the loop. -/
def namex (st : FsState) (cwd root : Ref) (path : List Nat) (parent : Bool) :
    Except Unit (Ref × Option FileName) :=
  namexGo st (if isAbsolute path then root else cwd) path parent

/-- Embeds `Path::namei`. -/
def namei (st : FsState) (cwd root : Ref) (path : List Nat) : Except Unit Ref :=
  (namex st cwd root path false).map Prod.fst

/-- Embeds `Path::nameiparent`, including the `ok_or` on a missing final
component. -/
def nameiparent (st : FsState) (cwd root : Ref) (path : List Nat) :
    Except Unit (Ref × FileName) :=
  match namex st cwd root path true with
  | .error _ => .error ()
  | .ok (_, none) => .error ()
  | .ok (ip, some nm) => .ok (ip, nm)

/-- The descent loop restated over the component list (proof vehicle:
`namexGo` coincides with it by `namexGo_eq_namexList`). -/
def namexList (st : FsState) : Ref → List FileName → Bool → Except Unit (Ref × Option FileName)
  | ptr, [], parent => if parent then .error () else .ok (ptr, none)
  | ptr, name :: rest, parent =>
    match lookupInode st ptr with
    | none => .error ()
    | some ip =>
      if ip.typ ≠ InodeType.dir then .error ()
      else if parent ∧ rest = [] then .ok (ptr, some name)
      else
        match dirlookup ip name with
        | none => .error ()
        | some (inum, _) => namexList st (ptr.1, inum) rest parent

lemma namexGoF_eq_namexList :
    ∀ fuel path st ptr parent, path.length < fuel →
      namexGoF fuel st ptr path parent = namexList st ptr (components path) parent := by
  intro fuel
  induction fuel with
  | zero => intro path st ptr parent h; omega
  | succ fuel ih =>
    intro path st ptr parent h
    show namexGoF (fuel + 1) st ptr path parent = _
    unfold namexGoF
    rw [components_unfold]
    cases hs : skipelem path with
    | none => rfl
    | some pr =>
      obtain ⟨np, nm⟩ := pr
      have hlt := skipelem_len_lt path np nm hs
      simp only
      unfold namexList
      cases lookupInode st ptr with
      | none => rfl
      | some ip =>
        simp only
        by_cases htyp : ip.typ ≠ InodeType.dir
        · rw [if_pos htyp, if_pos htyp]
        · rw [if_neg htyp, if_neg htyp]
          have hiff := skipelem_rest_nil_iff_components path np nm hs
          by_cases hpar : parent ∧ np = []
          · rw [if_pos hpar, if_pos ⟨hpar.1, hiff.mp hpar.2⟩]
          · rw [if_neg hpar, if_neg (fun hc => hpar ⟨hc.1, hiff.mpr hc.2⟩)]
            cases dirlookup ip nm with
            | none => rfl
            | some pr2 =>
              obtain ⟨inum, off⟩ := pr2
              simp only
              exact ih np st (ptr.1, inum) parent (by omega)

lemma namexGo_eq_namexList (st : FsState) (ptr : Ref) (path : List Nat)
    (parent : Bool) :
    namexGo st ptr path parent = namexList st ptr (components path) parent :=
  namexGoF_eq_namexList (path.length + 1) path st ptr parent (by omega)

/-- Proof vehicle for C5: descend through a list of components, requiring
each visited inode to be a directory. -/
def walkDirs (st : FsState) : Ref → List FileName → Option Ref
  | p, [] => some p
  | p, n :: rest =>
    match lookupInode st p with
    | none => none
    | some d =>
      if d.typ = InodeType.dir then
        match dirlookup d n with
        | none => none
        | some (inum, _) => walkDirs st (p.1, inum) rest
      else none

lemma namexList_parent_ok (st : FsState) :
    ∀ (ns : List FileName) (p q : Ref) (last : FileName),
      walkDirs st p ns = some q →
      (lookupInode st q).map InodeData.typ = some InodeType.dir →
      namexList st p (ns ++ [last]) true = .ok (q, some last) := by
  intro ns
  induction ns with
  | nil =>
    intro p q last hw ht
    simp only [walkDirs, Option.some.injEq] at hw
    subst hw
    cases hq : lookupInode st p with
    | none => rw [hq] at ht; simp at ht
    | some d =>
      rw [hq] at ht
      simp only [Option.map_some', Option.some.injEq] at ht
      show namexList st p ([] ++ [last]) true = _
      rw [List.nil_append]
      unfold namexList
      rw [hq]
      simp [ht]
  | cons n rest ih =>
    intro p q last hw ht
    unfold walkDirs at hw
    cases hq : lookupInode st p with
    | none => rw [hq] at hw; simp at hw
    | some d =>
      rw [hq] at hw
      simp only at hw
      by_cases htyp : d.typ = InodeType.dir
      · rw [if_pos htyp] at hw
        cases hdl : dirlookup d n with
        | none => rw [hdl] at hw; simp at hw
        | some pr =>
          rw [hdl] at hw
          obtain ⟨inum, off⟩ := pr
          simp only at hw
          show namexList st p ((n :: rest) ++ [last]) true = _
          rw [List.cons_append]
          unfold namexList
          rw [hq]
          simp only
          rw [if_neg (by simp [htyp])]
          rw [if_neg (by simp)]
          rw [hdl]
          exact ih (p.1, inum) q last hw ht
      · rw [if_neg htyp] at hw; simp at hw

/-- C5: with `want_parent = true`, on any path whose component sequence is
`ns ++ [last]` and whose prefix `ns` resolves through directory-typed
inodes to a directory `q`, the resolver returns `(q, last)` — no
hypothesis about `last` existing in `q` is needed; and on any path with
zero components it fails. -/
theorem nameiparent_spec (st : FsState) (cwd root : Ref) (path : List Nat) :
    (∀ (ns : List FileName) (last : FileName) (q : Ref),
      components path = ns ++ [last] →
      walkDirs st (if isAbsolute path then root else cwd) ns = some q →
      (lookupInode st q).map InodeData.typ = some InodeType.dir →
      nameiparent st cwd root path = .ok (q, last))
    ∧ (components path = [] → nameiparent st cwd root path = .error ()) := by
  constructor
  · intro ns last q hc hw ht
    unfold nameiparent namex
    rw [namexGo_eq_namexList, hc, namexList_parent_ok st ns _ q last hw ht]
  · intro hc
    unfold nameiparent namex
    rw [namexGo_eq_namexList, hc]
    rfl

lemma assocFind_set_same (r : Ref) (d : InodeData) :
    ∀ l, assocFind r (assocSet r d l) = some d := by
  intro l
  induction l with
  | nil => simp [assocSet, assocFind]
  | cons p t ih =>
    obtain ⟨r', d'⟩ := p
    by_cases h : r' = r
    · simp [assocSet, assocFind, h]
    · simp only [assocSet, if_neg h]
      simp only [assocFind, if_neg h]
      exact ih

lemma assocFind_set_ne (r r' : Ref) (d : InodeData) (hne : r' ≠ r) :
    ∀ l, assocFind r' (assocSet r d l) = assocFind r' l := by
  intro l
  induction l with
  | nil =>
    show assocFind r' [(r, d)] = none
    simp only [assocFind]
    rw [if_neg (fun h => hne h.symm)]
  | cons p t ih =>
    obtain ⟨r'', d'⟩ := p
    by_cases h : r'' = r
    · subst h
      simp only [assocSet, if_pos rfl, assocFind]
      rw [if_neg (fun h => hne h.symm), if_neg (fun h => hne h.symm)]
    · simp only [assocSet, if_neg h]
      by_cases h2 : r'' = r'
      · simp [assocFind, h2]
      · simp only [assocFind, if_neg h2]
        exact ih

lemma lookup_set_same (st : FsState) (r : Ref) (d : InodeData) :
    lookupInode (setInode st r d) r = some d :=
  assocFind_set_same r d st.inodes

lemma lookup_set_ne (st : FsState) (r r' : Ref) (d : InodeData) (hne : r' ≠ r) :
    lookupInode (setInode st r d) r' = lookupInode st r' :=
  assocFind_set_ne r r' d hne st.inodes

/-! ## Orchestrator (`sysfile.rs`) -/

/-- Outcome of a syscall body: success, a returned error (`Err(())`), or
abnormal termination (a Rust `panic!`/`expect` failure). -/
inductive SysResult (α : Type) where
  | ok (a : α)
  | err
  | panic
  deriving DecidableEq, Repr

/-- The compensating tail of `Kernel::link`: re-lock the target and
decrement its link count back before returning the error. -/
def linkRoll (st1 : FsState) (ptr : Ref) : SysResult Unit × FsState :=
  match lookupInode st1 ptr with
  | none => (.err, st1)
  | some ip2 => (.err, setInode st1 ptr { ip2 with nlink := ip2.nlink - 1 })

/-- Embeds `Kernel::link` of `sysfile.rs`: resolve `old`, refuse
directories, increment the target's link count, then resolve the parent
of `new` and link the name there; on any later failure run `linkRoll`
before returning the error.  Returns the final state alongside the
outcome. -/
def link (st : FsState) (cwd root : Ref) (old new : List Nat) :
    SysResult Unit × FsState :=
  match namei st cwd root old with
  | .error _ => (.err, st)
  | .ok ptr =>
    match lookupInode st ptr with
    | none => (.err, st)
    | some ip =>
      if ip.typ = InodeType.dir then (.err, st)
      else
        match nameiparent (setInode st ptr { ip with nlink := ip.nlink + 1 })
            cwd root new with
        | .error _ => linkRoll (setInode st ptr { ip with nlink := ip.nlink + 1 }) ptr
        | .ok (ptr2, name) =>
          if ptr2.1 ≠ ptr.1 then
            linkRoll (setInode st ptr { ip with nlink := ip.nlink + 1 }) ptr
          else
            match dirlink (setInode st ptr { ip with nlink := ip.nlink + 1 })
                ptr2 name ptr.2 with
            | .error _ => linkRoll (setInode st ptr { ip with nlink := ip.nlink + 1 }) ptr
            | .ok st2 => (.ok (), st2)

lemma linkRoll_nlink (st : FsState) (ptr : Ref) (ip : InodeData)
    (hip : lookupInode st ptr = some ip) :
    nlinkOf (linkRoll (setInode st ptr { ip with nlink := ip.nlink + 1 }) ptr).2 ptr
      = nlinkOf st ptr := by
  unfold linkRoll
  rw [lookup_set_same]
  simp [nlinkOf, lookup_set_same, hip]

lemma link_ok_or_nlink (st : FsState) (cwd root : Ref)
    (old new : List Nat) (ptr : Ref)
    (hres : namei st cwd root old = .ok ptr) :
    (link st cwd root old new).1 = .ok ()
    ∨ nlinkOf (link st cwd root old new).2 ptr = nlinkOf st ptr := by
  unfold link
  rw [hres]
  split
  · rename_i a heq
    exact absurd heq (by simp)
  · rename_i ptr' heq
    rw [Except.ok.injEq] at heq
    subst heq
    split
    · exact Or.inr rfl
    · rename_i ip hip
      split
      · exact Or.inr rfl
      · split
        · exact Or.inr (linkRoll_nlink st ptr ip hip)
        · split
          · exact Or.inr (linkRoll_nlink st ptr ip hip)
          · split
            · exact Or.inr (linkRoll_nlink st ptr ip hip)
            · exact Or.inl rfl

/-- C1: whenever `link(old, new)` returns failure after `old` resolved to
an inode (directory target, failed parent resolution for `new`,
cross-device parent, or failed directory insertion), that inode's link
count is unchanged in the final state. -/
theorem link_fail_preserves_nlink (st : FsState) (cwd root : Ref)
    (old new : List Nat) (ptr : Ref)
    (hres : namei st cwd root old = .ok ptr)
    (hfail : (link st cwd root old new).1 = .err) :
    nlinkOf (link st cwd root old new).2 ptr = nlinkOf st ptr := by
  rcases link_ok_or_nlink st cwd root old new ptr hres with h | h
  · rw [h] at hfail; exact absurd hfail (by simp)
  · exact h

/-- Sample state for the C1 witness: a root directory on device 0 holding
file `f`, and the working directory on a different device 1. -/
def stC1 : FsState :=
  ⟨[((0, 1), ⟨InodeType.dir, 1,
      [⟨FileName.from_bytes (strBytes "."), 1⟩,
       ⟨FileName.from_bytes (strBytes ".."), 1⟩,
       ⟨FileName.from_bytes (strBytes "f"), 2⟩]⟩),
    ((0, 2), ⟨InodeType.file, 1, []⟩),
    ((1, 5), ⟨InodeType.dir, 1,
      [⟨FileName.from_bytes (strBytes "."), 5⟩,
       ⟨FileName.from_bytes (strBytes ".."), 5⟩]⟩)]⟩

/-- C1 witness: a cross-device `link("/f", "g")` (working directory on
device 1, target on device 0) fails and leaves the target's link count
unchanged. -/
theorem link_fail_preserves_nlink_witness :
    namei stC1 (1, 5) (0, 1) (strBytes "/f") = .ok (0, 2)
    ∧ (link stC1 (1, 5) (0, 1) (strBytes "/f") (strBytes "g")).1 = .err
    ∧ nlinkOf (link stC1 (1, 5) (0, 1) (strBytes "/f") (strBytes "g")).2 (0, 2)
        = nlinkOf stC1 (0, 2) :=
  ⟨by rfl, by decide,
   link_fail_preserves_nlink stC1 (1, 5) (0, 1) (strBytes "/f") (strBytes "g")
     (0, 2) (by rfl) (by decide)⟩

/-! ## `Kernel::unlink` -/

/-- FileName literal `"."`. -/
def dotName : FileName := FileName.from_bytes [46]

/-- FileName literal `".."`. -/
def dotdotName : FileName := FileName.from_bytes [46, 46]

/-- Zero the directory entry at `off` (the `write_kernel(&de, off)` step:
a default `Dirent` has inode number 0). -/
def zeroEntry (st : FsState) (r : Ref) (off : Nat) : FsState :=
  match lookupInode st r with
  | none => st
  | some d => setInode st r { d with entries := d.entries.set off ⟨FileName.mk [], 0⟩ }

/-- The `nlink -= 1; update(tx)` step. -/
def decNlink (st : FsState) (r : Ref) : FsState :=
  match lookupInode st r with
  | none => st
  | some d => setInode st r { d with nlink := d.nlink - 1 }

/-- Inner step of `Kernel::unlink` once the target inode is locked: abort
if the target's link count is below 1 (the release-active
`assert!(nlink >= 1, "unlink: nlink < 1")`), require non-directories or
empty directories, zero the entry, decrement the parent's link count when
the target is a directory, and decrement the target's link count.
(`unlink` is one Rust function; it is split into staged helpers here only
to name its intermediate control points.) -/
def unlinkDo (st : FsState) (ptr : Ref) (inum off : Nat) (ip : InodeData) :
    SysResult Unit × FsState :=
  if ip.nlink < 1 then (.panic, st)
  else if ip.typ ≠ InodeType.dir ∨ isDirEmpty ip then
    (.ok (), decNlink
      (if ip.typ = InodeType.dir
       then decNlink (zeroEntry st ptr off) ptr
       else zeroEntry st ptr off)
      (ptr.1, inum))
  else (.err, st)

/-- Step of `Kernel::unlink` after the entry lookup succeeded. -/
def unlinkFound (st : FsState) (ptr : Ref) (inum off : Nat) :
    SysResult Unit × FsState :=
  match lookupInode st (ptr.1, inum) with
  | none => (.err, st)
  | some ip => unlinkDo st ptr inum off ip

/-- Body of `Kernel::unlink` with the parent locked: refuse `"."`/`".."`,
then look up the entry. -/
def unlinkBody (st : FsState) (ptr : Ref) (name : FileName) (dp : InodeData) :
    SysResult Unit × FsState :=
  if name = dotName ∨ name = dotdotName then (.err, st)
  else
    match dirlookup dp name with
    | none => (.err, st)
    | some (inum, off) => unlinkFound st ptr inum off

/-- Embeds `Kernel::unlink` of `sysfile.rs`: resolve the parent and final
name, then run the body. -/
def unlink (st : FsState) (cwd root : Ref) (path : List Nat) :
    SysResult Unit × FsState :=
  match nameiparent st cwd root path with
  | .error _ => (.err, st)
  | .ok (ptr, name) =>
    match lookupInode st ptr with
    | none => (.err, st)
    | some dp => unlinkBody st ptr name dp

lemma dirlookupEnts_off_lt (nm : FileName) :
    ∀ (l : List Dirent) (i off : Nat),
      dirlookupEnts l nm = some (i, off) → off < l.length := by
  intro l
  induction l with
  | nil => intro i off h; simp [dirlookupEnts] at h
  | cons e t ih =>
    intro i off h
    unfold dirlookupEnts at h
    by_cases hc : e.inum ≠ 0 ∧ e.name = nm
    · rw [if_pos hc] at h
      simp only [Option.some.injEq, Prod.mk.injEq] at h
      rw [← h.2]
      simp
    · rw [if_neg hc] at h
      cases ht : dirlookupEnts t nm with
      | none => rw [ht] at h; simp at h
      | some pr =>
        rw [ht] at h
        simp only [Option.map_some', Option.some.injEq] at h
        have hlt := ih pr.1 pr.2 (by rw [ht])
        rw [Prod.mk.injEq] at h
        simp only [List.length_cons]
        omega

lemma unlink_eq_body (st : FsState) (cwd root : Ref) (path : List Nat)
    (ptr : Ref) (name : FileName) (dp : InodeData)
    (hp : nameiparent st cwd root path = .ok (ptr, name))
    (hdp : lookupInode st ptr = some dp) :
    unlink st cwd root path = unlinkBody st ptr name dp := by
  unfold unlink
  split
  · rename_i a heq
    rw [hp] at heq
    simp at heq
  · rename_i ptr' name' heq
    rw [hp, Except.ok.injEq, Prod.mk.injEq] at heq
    obtain ⟨h1, h2⟩ := heq
    subst h1
    subst h2
    split
    · rename_i heq2
      rw [hdp] at heq2
      simp at heq2
    · rename_i dp' heq2
      rw [hdp, Option.some.injEq] at heq2
      subst heq2
      rfl

lemma unlinkBody_some (st : FsState) (ptr : Ref) (name : FileName)
    (dp : InodeData) (inum off : Nat)
    (hne : ¬(name = dotName ∨ name = dotdotName))
    (hdl : dirlookup dp name = some (inum, off)) :
    unlinkBody st ptr name dp = unlinkFound st ptr inum off := by
  unfold unlinkBody
  rw [if_neg hne, hdl]

lemma unlinkFound_eq (st : FsState) (ptr : Ref) (inum off : Nat)
    (ip : InodeData) (hip : lookupInode st (ptr.1, inum) = some ip) :
    unlinkFound st ptr inum off = unlinkDo st ptr inum off ip := by
  unfold unlinkFound
  rw [hip]

lemma unlinkDo_ok (st : FsState) (ptr : Ref) (inum off : Nat)
    (ip dp : InodeData)
    (hdp : lookupInode st ptr = some dp)
    (hip : lookupInode st (ptr.1, inum) = some ip)
    (hnl : 1 ≤ ip.nlink)
    (hcond : ip.typ ≠ InodeType.dir ∨ isDirEmpty ip)
    (hneq : (ptr.1, inum) ≠ ptr)
    (hoff : off < dp.entries.length) :
    (unlinkDo st ptr inum off ip).1 = .ok ()
    ∧ entryAt (unlinkDo st ptr inum off ip).2 ptr off = some ⟨FileName.mk [], 0⟩
    ∧ nlinkOf (unlinkDo st ptr inum off ip).2 ptr
        = some (dp.nlink - (if ip.typ = InodeType.dir then 1 else 0))
    ∧ nlinkOf (unlinkDo st ptr inum off ip).2 (ptr.1, inum)
        = some (ip.nlink - 1) := by
  have hz : zeroEntry st ptr off
      = setInode st ptr
          { dp with entries := dp.entries.set off ⟨FileName.mk [], 0⟩ } := by
    unfold zeroEntry
    rw [hdp]
  unfold unlinkDo
  rw [if_neg (by omega), if_pos hcond]
  by_cases hd : ip.typ = InodeType.dir
  · rw [if_pos hd, hz]
    have h2 : decNlink (setInode st ptr
          { dp with entries := dp.entries.set off ⟨FileName.mk [], 0⟩ }) ptr
        = setInode (setInode st ptr
            { dp with entries := dp.entries.set off ⟨FileName.mk [], 0⟩ }) ptr
            { dp with nlink := dp.nlink - 1, entries := dp.entries.set off ⟨FileName.mk [], 0⟩ } := by
      unfold decNlink
      rw [lookup_set_same]
    rw [h2]
    have h3 : lookupInode (setInode (setInode st ptr
          { dp with entries := dp.entries.set off ⟨FileName.mk [], 0⟩ }) ptr
          { dp with nlink := dp.nlink - 1, entries := dp.entries.set off ⟨FileName.mk [], 0⟩ }) (ptr.1, inum) = some ip := by
      rw [lookup_set_ne _ _ _ _ hneq, lookup_set_ne _ _ _ _ hneq, hip]
    have h4 : decNlink (setInode (setInode st ptr
          { dp with entries := dp.entries.set off ⟨FileName.mk [], 0⟩ }) ptr
          { dp with nlink := dp.nlink - 1, entries := dp.entries.set off ⟨FileName.mk [], 0⟩ }) (ptr.1, inum)
        = setInode (setInode (setInode st ptr
            { dp with entries := dp.entries.set off ⟨FileName.mk [], 0⟩ }) ptr
            { dp with nlink := dp.nlink - 1, entries := dp.entries.set off ⟨FileName.mk [], 0⟩ }) (ptr.1, inum)
            { ip with nlink := ip.nlink - 1 } := by
      unfold decNlink
      rw [h3]
    rw [h4]
    refine ⟨rfl, ?_, ?_, ?_⟩
    · unfold entryAt
      rw [lookup_set_ne _ _ _ _ (Ne.symm hneq), lookup_set_same]
      simp only [Option.some_bind]
      exact List.getElem?_set_self hoff
    · unfold nlinkOf
      rw [lookup_set_ne _ _ _ _ (Ne.symm hneq), lookup_set_same]
      rw [if_pos hd]
      rfl
    · unfold nlinkOf
      rw [lookup_set_same]
      rfl
  · rw [if_neg hd, hz]
    have h3 : lookupInode (setInode st ptr
          { dp with entries := dp.entries.set off ⟨FileName.mk [], 0⟩ })
          (ptr.1, inum) = some ip := by
      rw [lookup_set_ne _ _ _ _ hneq, hip]
    have h4 : decNlink (setInode st ptr
          { dp with entries := dp.entries.set off ⟨FileName.mk [], 0⟩ })
          (ptr.1, inum)
        = setInode (setInode st ptr
            { dp with entries := dp.entries.set off ⟨FileName.mk [], 0⟩ })
            (ptr.1, inum) { ip with nlink := ip.nlink - 1 } := by
      unfold decNlink
      rw [h3]
    rw [h4]
    refine ⟨rfl, ?_, ?_, ?_⟩
    · unfold entryAt
      rw [lookup_set_ne _ _ _ _ (Ne.symm hneq), lookup_set_same]
      simp only [Option.some_bind]
      exact List.getElem?_set_self hoff
    · unfold nlinkOf
      rw [lookup_set_ne _ _ _ _ (Ne.symm hneq), lookup_set_same]
      rw [if_neg hd]
      simp
    · unfold nlinkOf
      rw [lookup_set_same]
      rfl

/-- C2: `unlink(path)` fails without mutating anything when the final name
is `"."` or `".."`, when the entry lookup fails, or when the target is a
non-empty directory; a target whose link count is below 1 trips the
`assert!(nlink >= 1)` and aborts instead of returning; on success it
zeroes the target's entry in the parent, decrements the parent's link
count exactly when the target is a directory, and decrements the target's
link count by one. -/
theorem unlink_spec (st : FsState) (cwd root : Ref) (path : List Nat)
    (ptr : Ref) (name : FileName) (dp : InodeData)
    (hp : nameiparent st cwd root path = .ok (ptr, name))
    (hdp : lookupInode st ptr = some dp) :
    ((name = dotName ∨ name = dotdotName) →
        unlink st cwd root path = (.err, st))
    ∧ (dirlookup dp name = none → unlink st cwd root path = (.err, st))
    ∧ (∀ inum off ip, ¬(name = dotName ∨ name = dotdotName) →
        dirlookup dp name = some (inum, off) →
        lookupInode st (ptr.1, inum) = some ip →
        ip.nlink < 1 →
        unlink st cwd root path = (.panic, st))
    ∧ (∀ inum off ip, ¬(name = dotName ∨ name = dotdotName) →
        dirlookup dp name = some (inum, off) →
        lookupInode st (ptr.1, inum) = some ip →
        1 ≤ ip.nlink →
        ip.typ = InodeType.dir → ¬ isDirEmpty ip →
        unlink st cwd root path = (.err, st))
    ∧ (∀ inum off ip, ¬(name = dotName ∨ name = dotdotName) →
        dirlookup dp name = some (inum, off) →
        lookupInode st (ptr.1, inum) = some ip →
        1 ≤ ip.nlink →
        (ip.typ ≠ InodeType.dir ∨ isDirEmpty ip) →
        (ptr.1, inum) ≠ ptr →
        (unlink st cwd root path).1 = .ok ()
        ∧ entryAt (unlink st cwd root path).2 ptr off = some ⟨FileName.mk [], 0⟩
        ∧ nlinkOf (unlink st cwd root path).2 ptr
            = some (dp.nlink - (if ip.typ = InodeType.dir then 1 else 0))
        ∧ nlinkOf (unlink st cwd root path).2 (ptr.1, inum)
            = some (ip.nlink - 1)) := by
  have hb := unlink_eq_body st cwd root path ptr name dp hp hdp
  refine ⟨?_, ?_, ?_, ?_, ?_⟩
  · intro hdot
    rw [hb]
    unfold unlinkBody
    rw [if_pos hdot]
  · intro hdl
    rw [hb]
    unfold unlinkBody
    by_cases hdot : name = dotName ∨ name = dotdotName
    · rw [if_pos hdot]
    · rw [if_neg hdot, hdl]
  · intro inum off ip hne hdl hip hlt
    rw [hb, unlinkBody_some st ptr name dp inum off hne hdl,
      unlinkFound_eq st ptr inum off ip hip]
    unfold unlinkDo
    rw [if_pos hlt]
  · intro inum off ip hne hdl hip hnl hdir hnemp
    rw [hb, unlinkBody_some st ptr name dp inum off hne hdl,
      unlinkFound_eq st ptr inum off ip hip]
    unfold unlinkDo
    rw [if_neg (by omega), if_neg (by push_neg; exact ⟨hdir, hnemp⟩)]
  · intro inum off ip hne hdl hip hnl hcond hneq
    rw [hb, unlinkBody_some st ptr name dp inum off hne hdl,
      unlinkFound_eq st ptr inum off ip hip]
    exact unlinkDo_ok st ptr inum off ip dp hdp hip hnl hcond hneq
      (dirlookupEnts_off_lt name dp.entries inum off hdl)

/-- C2 witness: `unlink("/f")` on a root directory holding file `f` at
offset 2 succeeds, zeroes the entry, leaves the parent's link count alone
(the target is not a directory) and decrements the target's link count
from 1 to 0. -/
theorem unlink_spec_witness :
    (unlink stC1 (0, 1) (0, 1) (strBytes "/f")).1 = .ok ()
    ∧ entryAt (unlink stC1 (0, 1) (0, 1) (strBytes "/f")).2 (0, 1) 2
        = some ⟨FileName.mk [], 0⟩
    ∧ nlinkOf (unlink stC1 (0, 1) (0, 1) (strBytes "/f")).2 (0, 1) = some 1
    ∧ nlinkOf (unlink stC1 (0, 1) (0, 1) (strBytes "/f")).2 (0, 2) = some 0 :=
  (unlink_spec stC1 (0, 1) (0, 1) (strBytes "/f") (0, 1)
      (FileName.from_bytes (strBytes "f"))
      ⟨InodeType.dir, 1,
        [⟨FileName.from_bytes (strBytes "."), 1⟩,
         ⟨FileName.from_bytes (strBytes ".."), 1⟩,
         ⟨FileName.from_bytes (strBytes "f"), 2⟩]⟩
      (by rfl) (by rfl)).2.2.2.2 2 2 ⟨InodeType.file, 1, []⟩
    (by decide) (by rfl) (by rfl) (by decide) (by decide) (by decide)

/-! ## Descriptor binding (`RcFile::fdalloc`) and `Kernel::pipe` -/

/-- Descriptor-table capacity (`NOFILE` in the source tree). -/
def NOFILE : Nat := 16

/-- Embeds `RcFile::fdalloc` of `sysfile.rs`: scan descriptors `0..` in
order for the first empty slot, fill exactly that slot, and fail when
every slot is occupied.  The fixed-size `open_files` array is modelled as
a list of length `NOFILE`. -/
def fdalloc {α : Type} (f : α) : List (Option α) → Option (Nat × List (Option α))
  | [] => none
  | none :: rest => some (0, some f :: rest)
  | some g :: rest => (fdalloc f rest).map (fun p => (p.1 + 1, some g :: p.2))

/-- Embeds `Kernel::pipe` of `sysfile.rs`.  `allocOk` stands for the
outcome of `allocate_pipe`, and `c0`/`c1` for the outcomes of the two
`copy_out` calls to user memory. -/
def pipe {α : Type} (files : List (Option α)) (allocOk : Bool)
    (reader writer : α) (c0 c1 : Bool) : SysResult Unit × List (Option α) :=
  if allocOk = false then (.err, files)
  else
    match fdalloc reader files with
    | none => (.err, files)
    | some (fd0, t1) =>
      match fdalloc writer t1 with
      | none => (.err, t1.set fd0 none)
      | some (fd1, t2) =>
        if c0 && c1 then (.ok (), t2)
        else (.err, (t2.set fd0 none).set fd1 none)

lemma fdalloc_none_iff {α : Type} (f : α) :
    ∀ files : List (Option α), fdalloc f files = none ↔ ∀ o ∈ files, o.isSome := by
  intro files
  induction files with
  | nil => simp [fdalloc]
  | cons o rest ih =>
    cases o with
    | none => simp [fdalloc]
    | some g =>
      simp only [fdalloc, Option.map_eq_none', List.mem_cons]
      rw [ih]
      constructor
      · intro h o ho
        rcases ho with ho | ho
        · rw [ho]; rfl
        · exact h o ho
      · intro h o ho
        exact h o (Or.inr ho)

lemma fdalloc_some {α : Type} (f : α) :
    ∀ (files files' : List (Option α)) (i : Nat),
      fdalloc f files = some (i, files') →
      i < files.length
      ∧ files[i]? = some none
      ∧ (∀ j, j < i → ∃ g, files[j]? = some (some g))
      ∧ files' = files.set i (some f) := by
  intro files
  induction files with
  | nil => intro files' i h; simp [fdalloc] at h
  | cons o rest ih =>
    intro files' i h
    cases o with
    | none =>
      unfold fdalloc at h
      simp only [Option.some.injEq, Prod.mk.injEq] at h
      obtain ⟨h1, h2⟩ := h
      subst h1
      refine ⟨by simp, by simp, by omega, ?_⟩
      rw [← h2]
      rfl
    | some g =>
      unfold fdalloc at h
      cases hr : fdalloc f rest with
      | none => rw [hr] at h; simp at h
      | some pr =>
        rw [hr] at h
        simp only [Option.map_some', Option.some.injEq, Prod.mk.injEq] at h
        obtain ⟨h1, h2⟩ := h
        obtain ⟨hlt, hat, hbefore, hset⟩ := ih pr.2 pr.1 (by rw [hr])
        subst h1
        refine ⟨by simpa using hlt, by simpa using hat, ?_, ?_⟩
        · intro j hj
          cases j with
          | zero => exact ⟨g, by simp⟩
          | succ j =>
            have := hbefore j (by omega)
            simpa using this
        · rw [← h2, hset]
          rfl

/-- C10: `fdalloc` binds the file at the smallest empty index of the
`NOFILE`-slot descriptor table, changing only that slot, and fails exactly
when every slot is occupied. -/
theorem fdalloc_spec {α : Type} (f : α) (files : List (Option α))
    (hlen : files.length = NOFILE) :
    (fdalloc f files = none ↔ ∀ o ∈ files, o.isSome)
    ∧ (∀ i files', fdalloc f files = some (i, files') →
        i < NOFILE
        ∧ files[i]? = some none
        ∧ (∀ j, j < i → ∃ g, files[j]? = some (some g))
        ∧ files' = files.set i (some f)) := by
  refine ⟨fdalloc_none_iff f files, ?_⟩
  intro i files' h
  obtain ⟨hlt, hrest⟩ := fdalloc_some f files files' i h
  exact ⟨hlen ▸ hlt, hrest⟩

/-- C10 witness: a 3-slot-style concrete table of length `NOFILE` whose
first empty slot is index 1. -/
theorem fdalloc_spec_witness :
    ([some 7, none, none, none, none, none, none, none,
      none, none, none, none, none, none, none, none] : List (Option Nat)).length
      = NOFILE
    ∧ (fdalloc 9 ([some 7, none, none, none, none, none, none, none,
        none, none, none, none, none, none, none, none] : List (Option Nat))
        = none ↔ ∀ o ∈ ([some 7, none, none, none, none, none, none, none,
        none, none, none, none, none, none, none, none] : List (Option Nat)),
          o.isSome)
    ∧ (∀ i files', fdalloc 9 ([some 7, none, none, none, none, none, none, none,
        none, none, none, none, none, none, none, none] : List (Option Nat))
          = some (i, files') →
        i < NOFILE
        ∧ ([some 7, none, none, none, none, none, none, none,
            none, none, none, none, none, none, none, none] : List (Option Nat))[i]?
            = some none
        ∧ (∀ j, j < i → ∃ g, ([some 7, none, none, none, none, none, none, none,
            none, none, none, none, none, none, none, none] : List (Option Nat))[j]?
            = some (some g))
        ∧ files' = ([some 7, none, none, none, none, none, none, none,
            none, none, none, none, none, none, none, none] : List (Option Nat)).set
              i (some 9)) :=
  ⟨by decide,
   (fdalloc_spec 9 _ (by decide)).1,
   (fdalloc_spec 9 _ (by decide)).2⟩

lemma set_none_of_none {α : Type} :
    ∀ (l : List (Option α)) (i : Nat), l[i]? = some none → l.set i none = l := by
  intro l
  induction l with
  | nil => intro i h; simp at h
  | cons o t ih =>
    intro i h
    cases i with
    | zero =>
      simp only [List.getElem?_cons_zero, Option.some.injEq] at h
      subst h
      rfl
    | succ i =>
      simp only [List.getElem?_cons_succ] at h
      simp only [List.set_cons_succ]
      rw [ih i h]

/-- C7: after the reader's descriptor was bound, a failure to bind the
writer clears the reader's slot (the final table equals the original); a
fault in either `copy_out` clears both slots (again restoring the
original table), so a failed `pipe()` leaves zero pipe descriptors
bound. -/
theorem pipe_spec {α : Type} (files : List (Option α)) (r w : α)
    (c0 c1 : Bool) (fd0 : Nat) (t1 : List (Option α))
    (h0 : fdalloc r files = some (fd0, t1)) :
    (fdalloc w t1 = none → pipe files true r w c0 c1 = (.err, files))
    ∧ (∀ fd1 t2, fdalloc w t1 = some (fd1, t2) → ¬(c0 = true ∧ c1 = true) →
        pipe files true r w c0 c1 = (.err, files)) := by
  obtain ⟨hlt, hat, hbef, hset⟩ := fdalloc_some r files t1 fd0 h0
  have hrestore : t1.set fd0 none = files := by
    rw [hset, List.set_set]
    exact set_none_of_none files fd0 hat
  constructor
  · intro hw
    unfold pipe
    rw [if_neg (by simp)]
    split
    · rename_i heq
      rw [h0] at heq
    · rename_i fd0' t1' heq
      rw [h0, Option.some.injEq, Prod.mk.injEq] at heq
      obtain ⟨e1, e2⟩ := heq
      subst e1
      subst e2
      split
      · rw [hrestore]
      · rename_i fd1' t2' heq2
        rw [hw] at heq2
        simp at heq2
  · intro fd1 t2 hw hc
    obtain ⟨hlt2, hat2, hbef2, hset2⟩ := fdalloc_some w t1 t2 fd1 hw
    have hne : fd1 ≠ fd0 := by
      intro he
      rw [he, hset, List.getElem?_set_self hlt] at hat2
      simp at hat2
    unfold pipe
    rw [if_neg (by simp)]
    split
    · rename_i heq
      rw [h0] at heq
    · rename_i fd0' t1' heq
      rw [h0, Option.some.injEq, Prod.mk.injEq] at heq
      obtain ⟨e1, e2⟩ := heq
      subst e1
      subst e2
      split
      · rename_i heq2
        rw [hw] at heq2
        simp at heq2
      · rename_i fd1' t2' heq2
        rw [hw, Option.some.injEq, Prod.mk.injEq] at heq2
        obtain ⟨e1, e2⟩ := heq2
        subst e1
        subst e2
        rw [if_neg (by rw [Bool.and_eq_true]; exact hc)]
        rw [hset2, List.set_comm _ _ _ hne, List.set_set, hrestore]
        have hf1 : files[fd1]? = some none := by
          rw [hset] at hat2
          rwa [List.getElem?_set_ne (fun h => hne h.symm)] at hat2
        rw [set_none_of_none files fd1 hf1]

/-- Descriptor table for the C7 witness: fifteen occupied slots and one
free slot at index 15. -/
def tblC7 : List (Option Nat) :=
  [some 0, some 0, some 0, some 0, some 0, some 0, some 0, some 0,
   some 0, some 0, some 0, some 0, some 0, some 0, some 0, none]

/-- The C7 witness table after binding the reader into slot 15. -/
def tblC7full : List (Option Nat) :=
  [some 0, some 0, some 0, some 0, some 0, some 0, some 0, some 0,
   some 0, some 0, some 0, some 0, some 0, some 0, some 0, some 7]

/-- C7 witness: with one free slot, binding the reader fills it, binding
the writer fails, and `pipe` returns failure with the original table
restored (zero pipe descriptors bound). -/
theorem pipe_spec_witness :
    fdalloc 7 tblC7 = some (15, tblC7full)
    ∧ fdalloc 8 tblC7full = none
    ∧ pipe tblC7 true 7 8 true true = (.err, tblC7) :=
  ⟨by rfl, by rfl,
   (pipe_spec tblC7 7 8 true true 15 tblC7full (by rfl)).1 (by rfl)⟩

/-- Sample state for the C5 witness: a root directory `(0,1)` containing
directory `d` at `(0,2)`; `d` has no entry `f`. -/
def stC5 : FsState :=
  ⟨[((0, 1), ⟨InodeType.dir, 1,
      [⟨FileName.from_bytes (strBytes "."), 1⟩,
       ⟨FileName.from_bytes (strBytes ".."), 1⟩,
       ⟨FileName.from_bytes (strBytes "d"), 2⟩]⟩),
    ((0, 2), ⟨InodeType.dir, 2,
      [⟨FileName.from_bytes (strBytes "."), 2⟩,
       ⟨FileName.from_bytes (strBytes ".."), 1⟩]⟩)]⟩

/-- C5 witness: on `"/d/f"` with `/d` an existing directory and `f`
absent, the resolver returns `/d`'s handle and the name `f`; on `"/"` it
fails. -/
theorem nameiparent_spec_witness :
    nameiparent stC5 (0, 1) (0, 1) (strBytes "/d/f")
        = .ok ((0, 2), FileName.from_bytes (strBytes "f"))
    ∧ nameiparent stC5 (0, 1) (0, 1) (strBytes "/") = .error () :=
  ⟨(nameiparent_spec stC5 (0, 1) (0, 1) (strBytes "/d/f")).1
      [FileName.from_bytes (strBytes "d")] (FileName.from_bytes (strBytes "f"))
      (0, 2) (by decide) (by decide) (by decide),
   (nameiparent_spec stC5 (0, 1) (0, 1) (strBytes "/")).2 (by decide)⟩

/-! ## `Kernel::create` (used by open/mkdir/mknod)

The sink closure `f` is modelled as a read-only observer of the locked
inode: every call site in `sysfile.rs` only reads fields of the guard. -/

/-- Reuse step of `Kernel::create` when an entry with the requested name
already exists: a regular-file request reuses an existing regular file or
device; every other combination fails. -/
def createReuse {T : Type} (st : FsState) (ptr2 : Ref) (ip : InodeData)
    (typ : InodeType) (f : InodeData → T) : SysResult (Ref × T) × FsState :=
  if typ = InodeType.file then
    match ip.typ with
    | InodeType.file => (.ok (ptr2, f ip), st)
    | InodeType.device _ _ => (.ok (ptr2, f ip), st)
    | _ => (.err, st)
  else (.err, st)

/-- Step of `Kernel::create` that locks the existing inode. -/
def createExisting {T : Type} (st : FsState) (ptrP : Ref) (inum2 : Nat)
    (typ : InodeType) (f : InodeData → T) : SysResult (Ref × T) × FsState :=
  match lookupInode st (ptrP.1, inum2) with
  | none => (.err, st)
  | some ip => createReuse st (ptrP.1, inum2) ip typ f

/-- The `".."` half of the dot-entry step of `Kernel::create`. -/
def createDotdot (st4 : FsState) (ptrP child : Ref) : Option FsState :=
  match dirlink st4 child dotdotName ptrP.2 with
  | .error _ => none
  | .ok st5 => some st5

/-- The directory-specific step of `Kernel::create` on a fresh inode:
increment the parent's link count (for `".."`), then create the `"."` and
`".."` entries; `none` encodes the `expect("create dots")` abnormal
termination.  The new inode's own link count is not incremented for
`"."`. -/
def createDots (st2 : FsState) (ptrP child : Ref) (dp : InodeData)
    (typ : InodeType) : Option FsState :=
  if typ = InodeType.dir then
    match dirlink (setInode st2 ptrP { dp with nlink := dp.nlink + 1 })
        child dotName child.2 with
    | .error _ => none
    | .ok st4 => createDotdot st4 ptrP child
  else some st2

/-- Final step of `Kernel::create` on a fresh inode: invoke the sink on
the new inode and return its handle. -/
def createFinish {T : Type} (stB : FsState) (child : Ref)
    (f : InodeData → T) : SysResult (Ref × T) × FsState :=
  match lookupInode stB child with
  | none => (.err, stB)
  | some cd => (.ok (child, f cd), stB)

/-- Linking step of `Kernel::create` on a fresh inode: link the new inode
into the parent under the requested name; failure is the
`expect("create: dirlink")` panic, not a returned error. -/
def createLink {T : Type} (stA : FsState) (ptrP child : Ref)
    (name : FileName) (f : InodeData → T) : SysResult (Ref × T) × FsState :=
  match dirlink stA ptrP name child.2 with
  | .error _ => (.panic, stA)
  | .ok stB => createFinish stB child f

/-- Fresh-allocation branch of `Kernel::create`: allocate a fresh inode of
the requested type, set its link count to 1 and persist, run the
directory step, then link the new inode into the parent under the
requested name; a failure of the dots or of the final link is the
`expect` panic (`SysResult.panic`), not a returned error. -/
def createFresh {T : Type} (st : FsState) (ptrP : Ref) (name : FileName)
    (dp : InodeData) (typ : InodeType) (f : InodeData → T) :
    SysResult (Ref × T) × FsState :=
  match createDots
      (setInode (setInode st (ptrP.1, freshInum st) ⟨typ, 0, []⟩)
        (ptrP.1, freshInum st) ⟨typ, 1, []⟩)
      ptrP (ptrP.1, freshInum st) dp typ with
  | none => (.panic, st)
  | some stA => createLink stA ptrP (ptrP.1, freshInum st) name f

/-- Embeds `Kernel::create` of `sysfile.rs`: resolve the parent and final
name, lock the parent, and dispatch on whether the name already exists. -/
def create {T : Type} (st : FsState) (cwd root : Ref) (path : List Nat)
    (typ : InodeType) (f : InodeData → T) : SysResult (Ref × T) × FsState :=
  match nameiparent st cwd root path with
  | .error _ => (.err, st)
  | .ok (ptrP, name) =>
    match lookupInode st ptrP with
    | none => (.err, st)
    | some dp =>
      match dirlookup dp name with
      | some (inum2, _) => createExisting st ptrP inum2 typ f
      | none => createFresh st ptrP name dp typ f

lemma create_eq_existing {T : Type} (st : FsState) (cwd root : Ref)
    (path : List Nat) (typ : InodeType) (f : InodeData → T)
    (ptrP : Ref) (name : FileName) (dp : InodeData) (inum2 off : Nat)
    (hp : nameiparent st cwd root path = .ok (ptrP, name))
    (hdp : lookupInode st ptrP = some dp)
    (hdl : dirlookup dp name = some (inum2, off)) :
    create st cwd root path typ f = createExisting st ptrP inum2 typ f := by
  unfold create
  split
  · rename_i a heq
    exact absurd (hp.symm.trans heq) (by simp)
  · rename_i ptrP' name' heq
    rw [hp, Except.ok.injEq, Prod.mk.injEq] at heq
    obtain ⟨e1, e2⟩ := heq
    subst e1
    subst e2
    split
    · rename_i heq2
      exact absurd (hdp.symm.trans heq2) (by simp)
    · rename_i dp' heq2
      rw [hdp, Option.some.injEq] at heq2
      subst heq2
      split
      · rename_i inum2' off' heq3
        rw [hdl, Option.some.injEq, Prod.mk.injEq] at heq3
        obtain ⟨e3, e4⟩ := heq3
        subst e3
        rfl
      · rename_i heq3
        exact absurd (hdl.symm.trans heq3) (by simp)

lemma create_eq_fresh {T : Type} (st : FsState) (cwd root : Ref)
    (path : List Nat) (typ : InodeType) (f : InodeData → T)
    (ptrP : Ref) (name : FileName) (dp : InodeData)
    (hp : nameiparent st cwd root path = .ok (ptrP, name))
    (hdp : lookupInode st ptrP = some dp)
    (hfresh : dirlookup dp name = none) :
    create st cwd root path typ f = createFresh st ptrP name dp typ f := by
  unfold create
  split
  · rename_i a heq
    exact absurd (hp.symm.trans heq) (by simp)
  · rename_i ptrP' name' heq
    rw [hp, Except.ok.injEq, Prod.mk.injEq] at heq
    obtain ⟨e1, e2⟩ := heq
    subst e1
    subst e2
    split
    · rename_i heq2
      exact absurd (hdp.symm.trans heq2) (by simp)
    · rename_i dp' heq2
      rw [hdp, Option.some.injEq] at heq2
      subst heq2
      split
      · rename_i inum2' off' heq3
        exact absurd (hfresh.symm.trans heq3) (by simp)
      · rfl

lemma createExisting_eq {T : Type} (st : FsState) (ptrP : Ref)
    (inum2 : Nat) (typ : InodeType) (f : InodeData → T) (ip : InodeData)
    (hip : lookupInode st (ptrP.1, inum2) = some ip) :
    createExisting st ptrP inum2 typ f
      = createReuse st (ptrP.1, inum2) ip typ f := by
  unfold createExisting
  rw [hip]

/-- C3: when an entry with the final name exists, `create` with requested
type regular-file reuses an existing regular file or device — invoking
the sink on the existing inode, returning its handle, and leaving the
state (hence the parent's entries) unchanged; every other combination of
requested and existing types fails without mutating anything. -/
theorem create_existing_spec {T : Type} (st : FsState) (cwd root : Ref)
    (path : List Nat) (typ : InodeType) (f : InodeData → T)
    (ptrP : Ref) (name : FileName) (dp ip : InodeData) (inum2 off : Nat)
    (hp : nameiparent st cwd root path = .ok (ptrP, name))
    (hdp : lookupInode st ptrP = some dp)
    (hdl : dirlookup dp name = some (inum2, off))
    (hip : lookupInode st (ptrP.1, inum2) = some ip) :
    ((typ = InodeType.file
        ∧ (ip.typ = InodeType.file ∨ ∃ ma mi, ip.typ = InodeType.device ma mi)) →
      create st cwd root path typ f = (.ok ((ptrP.1, inum2), f ip), st))
    ∧ (¬(typ = InodeType.file
        ∧ (ip.typ = InodeType.file ∨ ∃ ma mi, ip.typ = InodeType.device ma mi)) →
      create st cwd root path typ f = (.err, st)) := by
  rw [create_eq_existing st cwd root path typ f ptrP name dp inum2 off hp hdp hdl,
    createExisting_eq st ptrP inum2 typ f ip hip]
  unfold createReuse
  constructor
  · rintro ⟨ht, hex⟩
    rw [if_pos ht]
    rcases hex with hf | ⟨ma, mi, hd⟩
    · rw [hf]
    · rw [hd]
  · intro hnot
    by_cases ht : typ = InodeType.file
    · cases hit : ip.typ with
      | file => exact absurd ⟨ht, Or.inl hit⟩ hnot
      | device ma mi => exact absurd ⟨ht, Or.inr ⟨ma, mi, hit⟩⟩ hnot
      | dir => rw [if_pos ht]
    · rw [if_neg ht]

/-- C3 witness: `create("/f", file)` over a root already containing file
`f` returns `f`'s existing handle, the sink's value on `f`'s inode, and
the unchanged state; `create("/f", dir)` (a mkdir collision) fails
without mutation. -/
theorem create_existing_spec_witness :
    create stC1 (0, 1) (0, 1) (strBytes "/f") InodeType.file InodeData.typ
        = (.ok ((0, 2), InodeType.file), stC1)
    ∧ create stC1 (0, 1) (0, 1) (strBytes "/f") InodeType.dir InodeData.typ
        = (.err, stC1) :=
  ⟨(create_existing_spec stC1 (0, 1) (0, 1) (strBytes "/f") InodeType.file
      InodeData.typ (0, 1) (FileName.from_bytes (strBytes "f"))
      ⟨InodeType.dir, 1,
        [⟨FileName.from_bytes (strBytes "."), 1⟩,
         ⟨FileName.from_bytes (strBytes ".."), 1⟩,
         ⟨FileName.from_bytes (strBytes "f"), 2⟩]⟩
      ⟨InodeType.file, 1, []⟩ 2 2 (by rfl) (by rfl) (by rfl) (by rfl)).1
    ⟨rfl, Or.inl rfl⟩,
   (create_existing_spec stC1 (0, 1) (0, 1) (strBytes "/f") InodeType.dir
      InodeData.typ (0, 1) (FileName.from_bytes (strBytes "f"))
      ⟨InodeType.dir, 1,
        [⟨FileName.from_bytes (strBytes "."), 1⟩,
         ⟨FileName.from_bytes (strBytes ".."), 1⟩,
         ⟨FileName.from_bytes (strBytes "f"), 2⟩]⟩
      ⟨InodeType.file, 1, []⟩ 2 2 (by rfl) (by rfl) (by rfl) (by rfl)).2
    (by simp)⟩

lemma assocFind_inum_le :
    ∀ (l : List (Ref × InodeData)) (r : Ref) (d : InodeData),
      assocFind r l = some d → r.2 ≤ (l.map (fun p => p.1.2)).foldr max 0 := by
  intro l
  induction l with
  | nil => intro r d h; simp [assocFind] at h
  | cons p t ih =>
    intro r d h
    unfold assocFind at h
    by_cases he : p.1 = r
    · rw [← he]
      simp only [List.map_cons, List.foldr_cons]
      exact le_max_left _ _
    · rw [if_neg he] at h
      have hle := ih r d h
      simp only [List.map_cons, List.foldr_cons]
      exact le_trans hle (le_max_right _ _)

/-- Helper: the fresh inode number is unused on every device. -/
lemma lookup_fresh_none (st : FsState) (dev : Nat) :
    lookupInode st (dev, freshInum st) = none := by
  cases h : lookupInode st (dev, freshInum st) with
  | none => rfl
  | some d =>
    have hle := assocFind_inum_le st.inodes (dev, freshInum st) d h
    unfold freshInum at hle
    exact absurd hle (by omega)

/-- Helper: inserting a previously absent name makes it found, pointing at
the inserted inode number. -/
lemma dirlookupEnts_dirlinkEnts (nm : FileName) (inum : Nat) (hz : inum ≠ 0) :
    ∀ l : List Dirent, dirlookupEnts l nm = none →
      ∃ o, dirlookupEnts (dirlinkEnts nm inum l) nm = some (inum, o) := by
  intro l
  induction l with
  | nil =>
    intro h
    refine ⟨0, ?_⟩
    show dirlookupEnts [⟨nm, inum⟩] nm = some (inum, 0)
    unfold dirlookupEnts
    rw [if_pos ⟨hz, rfl⟩]
  | cons e t ih =>
    intro h
    unfold dirlookupEnts at h
    by_cases hc : e.inum ≠ 0 ∧ e.name = nm
    · rw [if_pos hc] at h
      simp at h
    · rw [if_neg hc] at h
      have ht : dirlookupEnts t nm = none := by
        cases hx : dirlookupEnts t nm with
        | none => rfl
        | some pr => rw [hx] at h; simp at h
      obtain ⟨o, ho⟩ := ih ht
      by_cases hz2 : e.inum = 0
      · refine ⟨0, ?_⟩
        show dirlookupEnts (dirlinkEnts nm inum (e :: t)) nm = some (inum, 0)
        unfold dirlinkEnts
        rw [if_pos hz2]
        unfold dirlookupEnts
        rw [if_pos ⟨hz, rfl⟩]
      · refine ⟨o + 1, ?_⟩
        show dirlookupEnts (dirlinkEnts nm inum (e :: t)) nm = some (inum, o + 1)
        unfold dirlinkEnts
        rw [if_neg hz2]
        unfold dirlookupEnts
        rw [if_neg hc, ho]
        rfl

lemma dirlookupEnts_cons_ne (e : Dirent) (t : List Dirent) (nm : FileName)
    (hne : e.name ≠ nm) :
    dirlookupEnts (e :: t) nm
      = (dirlookupEnts t nm).map (fun p => (p.1, p.2 + 1)) := by
  show (if e.inum ≠ 0 ∧ e.name = nm then some (e.inum, 0)
      else (dirlookupEnts t nm).map (fun p => (p.1, p.2 + 1)))
    = (dirlookupEnts t nm).map (fun p => (p.1, p.2 + 1))
  rw [if_neg (fun hc => hne hc.2)]

lemma dirlookupEnts_cons_hit (e : Dirent) (t : List Dirent) (nm : FileName)
    (hz : e.inum ≠ 0) (hnm : e.name = nm) :
    dirlookupEnts (e :: t) nm = some (e.inum, 0) := by
  unfold dirlookupEnts
  rw [if_pos ⟨hz, hnm⟩]

lemma dirlink_ok (st : FsState) (r : Ref) (nm : FileName) (inum : Nat)
    (d : InodeData) (e : List Dirent)
    (hd : lookupInode st r = some d)
    (hnone : dirlookup d nm = none)
    (he : dirlinkEnts nm inum d.entries = e) :
    dirlink st r nm inum = .ok (setInode st r ⟨d.typ, d.nlink, e⟩) := by
  unfold dirlink
  rw [hd]
  show (if (dirlookup d nm).isSome = true then Except.error ()
      else Except.ok (setInode st r
        { d with entries := dirlinkEnts nm inum d.entries }))
    = Except.ok (setInode st r ⟨d.typ, d.nlink, e⟩)
  rw [hnone, he]
  rfl

/-- C4: a successful directory `create` on a fresh name sets the new
inode's link count to 1 (with no increment for its own `"."`), increments
the parent's link count by exactly one, makes `"."` and `".."` —
pointing at the new inode and the parent — the new directory's only
entries, links the new inode into the parent under the requested name,
and returns ok status with the sink applied to the new inode (the dot and
final-link failure branches of `createDots`/`createLink` yield
`SysResult.panic`, abnormal termination, never a returned error). -/
theorem create_dir_spec {T : Type} (st : FsState) (cwd root : Ref)
    (path : List Nat) (f : InodeData → T)
    (ptrP : Ref) (name : FileName) (dp : InodeData)
    (hp : nameiparent st cwd root path = .ok (ptrP, name))
    (hdp : lookupInode st ptrP = some dp)
    (hfresh : dirlookup dp name = none)
    (hpnz : ptrP.2 ≠ 0) :
    (create st cwd root path InodeType.dir f).1
        = .ok ((ptrP.1, freshInum st),
            f ⟨InodeType.dir, 1,
              [⟨dotName, freshInum st⟩, ⟨dotdotName, ptrP.2⟩]⟩)
    ∧ lookupInode (create st cwd root path InodeType.dir f).2
          (ptrP.1, freshInum st)
        = some ⟨InodeType.dir, 1,
            [⟨dotName, freshInum st⟩, ⟨dotdotName, ptrP.2⟩]⟩
    ∧ nlinkOf (create st cwd root path InodeType.dir f).2 ptrP
        = some (dp.nlink + 1)
    ∧ (∃ o, (lookupInode (create st cwd root path InodeType.dir f).2 ptrP).bind
          (fun d => dirlookup d name) = some (freshInum st, o))
    ∧ dirlookup ⟨InodeType.dir, 1,
          [⟨dotName, freshInum st⟩, ⟨dotdotName, ptrP.2⟩]⟩ dotName
        = some (freshInum st, 0)
    ∧ dirlookup ⟨InodeType.dir, 1,
          [⟨dotName, freshInum st⟩, ⟨dotdotName, ptrP.2⟩]⟩ dotdotName
        = some (ptrP.2, 1) := by
  have hfz : freshInum st ≠ 0 := Nat.succ_ne_zero _
  have hdd : dotName ≠ dotdotName := by decide
  have hchild0 : lookupInode st (ptrP.1, freshInum st) = none :=
    lookup_fresh_none st ptrP.1
  have hne : (ptrP.1, freshInum st) ≠ ptrP := by
    intro he
    rw [he] at hchild0
    exact Option.noConfusion (hdp.symm.trans hchild0)
  -- state abbreviations are spelled out; the chain mirrors the Rust body
  have hl3 : lookupInode
      (setInode
        (setInode (setInode st (ptrP.1, freshInum st) ⟨InodeType.dir, 0, []⟩)
          (ptrP.1, freshInum st) ⟨InodeType.dir, 1, []⟩)
        ptrP { dp with nlink := dp.nlink + 1 })
      (ptrP.1, freshInum st) = some ⟨InodeType.dir, 1, []⟩ := by
    rw [lookup_set_ne _ _ _ _ hne]
    exact lookup_set_same _ _ _
  have hd1 : dirlink
      (setInode
        (setInode (setInode st (ptrP.1, freshInum st) ⟨InodeType.dir, 0, []⟩)
          (ptrP.1, freshInum st) ⟨InodeType.dir, 1, []⟩)
        ptrP { dp with nlink := dp.nlink + 1 })
      (ptrP.1, freshInum st) dotName (ptrP.1, freshInum st).2
      = .ok (setInode
          (setInode
            (setInode (setInode st (ptrP.1, freshInum st) ⟨InodeType.dir, 0, []⟩)
              (ptrP.1, freshInum st) ⟨InodeType.dir, 1, []⟩)
            ptrP { dp with nlink := dp.nlink + 1 })
          (ptrP.1, freshInum st)
          ⟨InodeType.dir, 1, [⟨dotName, freshInum st⟩]⟩) :=
    dirlink_ok _ _ _ _ ⟨InodeType.dir, 1, []⟩ _ hl3 (by decide) rfl
  have hl4 : lookupInode
      (setInode
        (setInode
          (setInode (setInode st (ptrP.1, freshInum st) ⟨InodeType.dir, 0, []⟩)
            (ptrP.1, freshInum st) ⟨InodeType.dir, 1, []⟩)
          ptrP { dp with nlink := dp.nlink + 1 })
        (ptrP.1, freshInum st)
        ⟨InodeType.dir, 1, [⟨dotName, freshInum st⟩]⟩)
      (ptrP.1, freshInum st)
      = some ⟨InodeType.dir, 1, [⟨dotName, freshInum st⟩]⟩ :=
    lookup_set_same _ _ _
  have hdl4 : dirlookup ⟨InodeType.dir, 1, [⟨dotName, freshInum st⟩]⟩
      dotdotName = none := by
    show dirlookupEnts [⟨dotName, freshInum st⟩] dotdotName = none
    rw [dirlookupEnts_cons_ne ⟨dotName, freshInum st⟩ [] dotdotName hdd]
    rfl
  have hde : dirlinkEnts dotdotName ptrP.2 [⟨dotName, freshInum st⟩]
      = [⟨dotName, freshInum st⟩, ⟨dotdotName, ptrP.2⟩] := by
    unfold dirlinkEnts
    rw [if_neg hfz]
    rfl
  have hd2 : dirlink
      (setInode
        (setInode
          (setInode (setInode st (ptrP.1, freshInum st) ⟨InodeType.dir, 0, []⟩)
            (ptrP.1, freshInum st) ⟨InodeType.dir, 1, []⟩)
          ptrP { dp with nlink := dp.nlink + 1 })
        (ptrP.1, freshInum st)
        ⟨InodeType.dir, 1, [⟨dotName, freshInum st⟩]⟩)
      (ptrP.1, freshInum st) dotdotName ptrP.2
      = .ok (setInode
          (setInode
            (setInode
              (setInode (setInode st (ptrP.1, freshInum st) ⟨InodeType.dir, 0, []⟩)
                (ptrP.1, freshInum st) ⟨InodeType.dir, 1, []⟩)
              ptrP { dp with nlink := dp.nlink + 1 })
            (ptrP.1, freshInum st)
            ⟨InodeType.dir, 1, [⟨dotName, freshInum st⟩]⟩)
          (ptrP.1, freshInum st)
          ⟨InodeType.dir, 1,
            [⟨dotName, freshInum st⟩, ⟨dotdotName, ptrP.2⟩]⟩) :=
    dirlink_ok _ _ _ _ ⟨InodeType.dir, 1, [⟨dotName, freshInum st⟩]⟩ _ hl4 hdl4 hde
  have hdots : createDots
      (setInode (setInode st (ptrP.1, freshInum st) ⟨InodeType.dir, 0, []⟩)
        (ptrP.1, freshInum st) ⟨InodeType.dir, 1, []⟩)
      ptrP (ptrP.1, freshInum st) dp InodeType.dir
      = some (setInode
          (setInode
            (setInode
              (setInode (setInode st (ptrP.1, freshInum st) ⟨InodeType.dir, 0, []⟩)
                (ptrP.1, freshInum st) ⟨InodeType.dir, 1, []⟩)
              ptrP { dp with nlink := dp.nlink + 1 })
            (ptrP.1, freshInum st)
            ⟨InodeType.dir, 1, [⟨dotName, freshInum st⟩]⟩)
          (ptrP.1, freshInum st)
          ⟨InodeType.dir, 1,
            [⟨dotName, freshInum st⟩, ⟨dotdotName, ptrP.2⟩]⟩) := by
    unfold createDots
    rw [if_pos rfl, hd1]
    show createDotdot
        (setInode
          (setInode
            (setInode (setInode st (ptrP.1, freshInum st) ⟨InodeType.dir, 0, []⟩)
              (ptrP.1, freshInum st) ⟨InodeType.dir, 1, []⟩)
            ptrP { dp with nlink := dp.nlink + 1 })
          (ptrP.1, freshInum st)
          ⟨InodeType.dir, 1, [⟨dotName, freshInum st⟩]⟩)
        ptrP (ptrP.1, freshInum st) = _
    unfold createDotdot
    rw [hd2]
  have hl5p : lookupInode
      (setInode
        (setInode
          (setInode
            (setInode (setInode st (ptrP.1, freshInum st) ⟨InodeType.dir, 0, []⟩)
              (ptrP.1, freshInum st) ⟨InodeType.dir, 1, []⟩)
            ptrP { dp with nlink := dp.nlink + 1 })
          (ptrP.1, freshInum st)
          ⟨InodeType.dir, 1, [⟨dotName, freshInum st⟩]⟩)
        (ptrP.1, freshInum st)
        ⟨InodeType.dir, 1,
          [⟨dotName, freshInum st⟩, ⟨dotdotName, ptrP.2⟩]⟩)
      ptrP = some { dp with nlink := dp.nlink + 1 } := by
    rw [lookup_set_ne _ _ _ _ (Ne.symm hne), lookup_set_ne _ _ _ _ (Ne.symm hne)]
    exact lookup_set_same _ _ _
  have h7 : dirlink
      (setInode
        (setInode
          (setInode
            (setInode (setInode st (ptrP.1, freshInum st) ⟨InodeType.dir, 0, []⟩)
              (ptrP.1, freshInum st) ⟨InodeType.dir, 1, []⟩)
            ptrP { dp with nlink := dp.nlink + 1 })
          (ptrP.1, freshInum st)
          ⟨InodeType.dir, 1, [⟨dotName, freshInum st⟩]⟩)
        (ptrP.1, freshInum st)
        ⟨InodeType.dir, 1,
          [⟨dotName, freshInum st⟩, ⟨dotdotName, ptrP.2⟩]⟩)
      ptrP name (ptrP.1, freshInum st).2
      = .ok (setInode
          (setInode
            (setInode
              (setInode
                (setInode (setInode st (ptrP.1, freshInum st) ⟨InodeType.dir, 0, []⟩)
                  (ptrP.1, freshInum st) ⟨InodeType.dir, 1, []⟩)
                ptrP { dp with nlink := dp.nlink + 1 })
              (ptrP.1, freshInum st)
              ⟨InodeType.dir, 1, [⟨dotName, freshInum st⟩]⟩)
            (ptrP.1, freshInum st)
            ⟨InodeType.dir, 1,
              [⟨dotName, freshInum st⟩, ⟨dotdotName, ptrP.2⟩]⟩)
          ptrP
          ⟨dp.typ, dp.nlink + 1,
            dirlinkEnts name (freshInum st) dp.entries⟩) :=
    dirlink_ok _ _ _ _ { dp with nlink := dp.nlink + 1 } _ hl5p hfresh rfl
  have hcreate : create st cwd root path InodeType.dir f
      = (.ok ((ptrP.1, freshInum st),
            f ⟨InodeType.dir, 1,
              [⟨dotName, freshInum st⟩, ⟨dotdotName, ptrP.2⟩]⟩),
          setInode
            (setInode
              (setInode
                (setInode
                  (setInode (setInode st (ptrP.1, freshInum st) ⟨InodeType.dir, 0, []⟩)
                    (ptrP.1, freshInum st) ⟨InodeType.dir, 1, []⟩)
                  ptrP { dp with nlink := dp.nlink + 1 })
                (ptrP.1, freshInum st)
                ⟨InodeType.dir, 1, [⟨dotName, freshInum st⟩]⟩)
              (ptrP.1, freshInum st)
              ⟨InodeType.dir, 1,
                [⟨dotName, freshInum st⟩, ⟨dotdotName, ptrP.2⟩]⟩)
            ptrP
            ⟨dp.typ, dp.nlink + 1,
              dirlinkEnts name (freshInum st) dp.entries⟩) := by
    rw [create_eq_fresh st cwd root path InodeType.dir f ptrP name dp hp hdp hfresh]
    unfold createFresh
    rw [hdots]
    show createLink _ ptrP (ptrP.1, freshInum st) name f = _
    unfold createLink
    rw [h7]
    show createFinish _ (ptrP.1, freshInum st) f = _
    unfold createFinish
    rw [lookup_set_ne _ _ _ _ hne, lookup_set_same]
  rw [hcreate]
  refine ⟨rfl, ?_, ?_, ?_, ?_, ?_⟩
  · rw [lookup_set_ne _ _ _ _ hne, lookup_set_same]
  · unfold nlinkOf
    rw [lookup_set_same]
    rfl
  · rw [lookup_set_same]
    simp only [Option.some_bind]
    exact dirlookupEnts_dirlinkEnts name (freshInum st) hfz dp.entries hfresh
  · show dirlookupEnts
        [⟨dotName, freshInum st⟩, ⟨dotdotName, ptrP.2⟩] dotName
        = some (freshInum st, 0)
    rw [dirlookupEnts_cons_hit _ _ _ hfz rfl]
  · show dirlookupEnts
        [⟨dotName, freshInum st⟩, ⟨dotdotName, ptrP.2⟩] dotdotName
        = some (ptrP.2, 1)
    rw [dirlookupEnts_cons_ne ⟨dotName, freshInum st⟩
        [⟨dotdotName, ptrP.2⟩] dotdotName hdd,
      dirlookupEnts_cons_hit _ _ _ hpnz rfl]
    rfl

/-- Sample state for the C4 witness: a root directory `(0,1)` holding only
`"."` and `".."`. -/
def stC4 : FsState :=
  ⟨[((0, 1), ⟨InodeType.dir, 1,
      [⟨FileName.from_bytes (strBytes "."), 1⟩,
       ⟨FileName.from_bytes (strBytes ".."), 1⟩]⟩)]⟩

/-- C4 witness: `mkdir("/d")` on a fresh name allocates inode 2 with link
count 1, bumps the root's link count from 1 to 2, gives the new directory
exactly the entries `"."` (to itself) and `".."` (to the root), and links
`d` into the root. -/
theorem create_dir_spec_witness :
    (create stC4 (0, 1) (0, 1) (strBytes "/d") InodeType.dir (fun _ => ())).1
        = .ok ((0, 2), ())
    ∧ lookupInode
          (create stC4 (0, 1) (0, 1) (strBytes "/d") InodeType.dir (fun _ => ())).2
          (0, 2)
        = some ⟨InodeType.dir, 1, [⟨dotName, 2⟩, ⟨dotdotName, 1⟩]⟩
    ∧ nlinkOf
          (create stC4 (0, 1) (0, 1) (strBytes "/d") InodeType.dir (fun _ => ())).2
          (0, 1)
        = some 2
    ∧ (∃ o, (lookupInode
          (create stC4 (0, 1) (0, 1) (strBytes "/d") InodeType.dir (fun _ => ())).2
          (0, 1)).bind
            (fun d => dirlookup d (FileName.from_bytes (strBytes "d")))
          = some (2, o))
    ∧ dirlookup ⟨InodeType.dir, 1, [⟨dotName, 2⟩, ⟨dotdotName, 1⟩]⟩ dotName
        = some (2, 0)
    ∧ dirlookup ⟨InodeType.dir, 1, [⟨dotName, 2⟩, ⟨dotdotName, 1⟩]⟩ dotdotName
        = some (1, 1) :=
  create_dir_spec stC4 (0, 1) (0, 1) (strBytes "/d") (fun _ => ()) (0, 1)
    (FileName.from_bytes (strBytes "d"))
    ⟨InodeType.dir, 1,
      [⟨FileName.from_bytes (strBytes "."), 1⟩,
       ⟨FileName.from_bytes (strBytes ".."), 1⟩]⟩
    (by rfl) (by rfl) (by rfl) (by decide)

end Rv6
